import Mathlib

/-!
# Verification of the Prism lock-free channel router (src/src/driver.rs)

A shallow embedding of the client registry, the shared ring buffer, the
per-callback I/O engine (`do_io_operation`) and the routing control path
(`set_property_data`, selector ROUT) of the Prism virtual audio driver.

Modelling conventions:
* `f32` audio samples are modelled as `Int`: the code only copies samples
  verbatim and writes the literal `0.0`; no arithmetic is performed on them,
  so any type with a distinguished zero is faithful.
* Sample times (`f64` `mSampleTime` values) are modelled as `Nat`.  The code
  converts them with `as usize` to index the ring and compares
  `input_sample_time + frames > last_write_time` in `f64`; for the
  integer-valued cycle times the host supplies (below 2^53) both operations
  are exact, so `Nat` arithmetic coincides with the source semantics.
* The `Vec<ClientSlot>` registry is a `List ClientSlot`; in the driver it
  always has length `MAX_CLIENTS = 4096`.  Loops of the form
  `for j in 0..MAX_CLIENTS { slots[j] ... }` are modelled as maps/folds over
  the whole list, and direct-indexed accesses `slots[idx]` as `List.getD`,
  with the index-in-range facts carried as hypotheses.
* The ring buffer `Vec<f32>` is a `List Int`; as in the source,
  `buffer_frames` is computed as `loopback_buffer.len() / channels` inside
  each call.
-/

namespace Prism

/-- Constant `MAX_CLIENTS` from driver.rs: size of the direct-indexed slot table. -/
def MAX_CLIENTS : Nat := 4096

/-- Status `kAudioHardwareIllegalOperationError` (fourcc `nope`), the status the
driver returns for an invalid routing offset. -/
def kAudioHardwareIllegalOperationError : Int := 0x6E6F7065

/-- One registry slot (`struct ClientSlot` in driver.rs).  Each field is an
atomic scalar in the source; a slot value here is one observed state. -/
structure ClientSlot where
  client_id : Nat          -- AtomicU32; 0 = unoccupied
  channel_offset : Nat     -- AtomicUsize
  pid : Int                -- AtomicI32
  last_write_time : Nat    -- AtomicU64 storing f64 bits; modelled exactly
deriving Repr, DecidableEq

/-- The all-zero slot produced by `create_driver`. -/
def ClientSlot.init : ClientSlot :=
  { client_id := 0, channel_offset := 0, pid := 0, last_write_time := 0 }

/-- The driver state visible to the registry, routing and I/O paths
(`struct PrismDriver`, the fields the verified operations touch). -/
structure PrismDriver where
  loopback_buffer : List Int   -- Vec<f32>, length 65536 * num_channels
  num_channels : Nat           -- config.num_channels (64 in the default config)
  client_slots : List ClientSlot -- Vec<ClientSlot>, length MAX_CLIENTS
  is_buffer_clear : Bool
deriving Repr, DecidableEq

/-- Slot index used everywhere in driver.rs: `(client_id as usize) & (MAX_CLIENTS - 1)`. -/
def slotIndex (client_id : Nat) : Nat := client_id &&& (MAX_CLIENTS - 1)

/-- Join (`add_device_client`): stores `channel_offset := 0`, the pid and the
client id into slot `slotIndex client_id`.  Note: the source does **not**
touch `last_write_time`. -/
def add_device_client (st : PrismDriver) (client_id : Nat) (pid : Int) : PrismDriver :=
  let idx := slotIndex client_id
  let slot := st.client_slots.getD idx ClientSlot.init
  let slot' := { slot with channel_offset := 0, pid := pid, client_id := client_id }
  { st with client_slots := st.client_slots.set idx slot' }

/-- Leave (`remove_device_client`): clears the slot only when its stored
`client_id` still equals the caller's; otherwise a no-op.  The `pid`
argument is read by the source only for logging. -/
def remove_device_client (st : PrismDriver) (client_id : Nat) (_pid : Int) : PrismDriver :=
  let idx := slotIndex client_id
  let slot := st.client_slots.getD idx ClientSlot.init
  if slot.client_id = client_id then
    { st with client_slots :=
        st.client_slots.set idx { slot with client_id := 0, channel_offset := 0, pid := 0 } }
  else
    st

/-- Result of the ROUT branch of `set_property_data`: the new driver state,
the returned `OSStatus`, and whether a client-list property-changed
notification was posted. -/
structure RoutResult where
  state : PrismDriver
  status : Int
  notified : Bool
deriving Repr, DecidableEq

/-- The ROUT (routing table) branch of `set_property_data`, after the CFData
envelope has been parsed into `(pid, offset)`.  Mirrors driver.rs 1284-1333:
offset parity/bounds validation, then the `pid == -1` broadcast loop over all
`MAX_CLIENTS` slots, then the pid-targeted loop. -/
def set_property_data_rout (st : PrismDriver) (pid : Int) (offset : Nat) : RoutResult :=
  let max_channels := st.num_channels
  if offset % 2 ≠ 0 ∨ offset + 1 ≥ max_channels then
    { state := st, status := kAudioHardwareIllegalOperationError, notified := false }
  else if pid = -1 then
    { state := { st with client_slots :=
        st.client_slots.map fun s => { s with channel_offset := offset } },
      status := 0, notified := true }
  else if pid ≠ 0 then
    let found := st.client_slots.any fun s => decide (s.pid = pid)
    { state := { st with client_slots :=
        st.client_slots.map fun s =>
          if s.pid = pid then { s with channel_offset := offset } else s },
      status := 0, notified := found }
  else
    { state := st, status := 0, notified := false }

/-- One iteration of the ProcessOutput copy loops: read the interleaved
stereo source frame `srcFrame` and store it at destination frame `dstFrame`,
channels `off` and `off+1`, guarded by the source's
`dst_idx + 1 < buffer_len` bounds check. -/
def writeFrame (input : List Int) (channels off bufferLen : Nat)
    (buf : List Int) (dstFrame srcFrame : Nat) : List Int :=
  let in_l := input.getD (srcFrame * 2) 0
  let in_r := input.getD (srcFrame * 2 + 1) 0
  let dst_idx := dstFrame * channels + off
  if dst_idx + 1 < bufferLen then
    (buf.set dst_idx in_l).set (dst_idx + 1) in_r
  else
    buf

/-- The ProcessOutput copy loop `for i in 0..n`, writing source frames
`srcBase + i` to destination frames `dstBase + i`. -/
def writeLoop (input : List Int) (channels off bufferLen : Nat) :
    Nat → Nat → Nat → List Int → List Int
  | _, _, 0, buf => buf
  | dstBase, srcBase, n + 1, buf =>
    writeLoop input channels off bufferLen (dstBase + 1) (srcBase + 1) n
      (writeFrame input channels off bufferLen buf dstBase srcBase)

/-- The ProcessOutput (ClientWrite) branch of `do_io_operation`
(driver.rs 1503-1585): slot lookup by direct index, silent drop on client-id
mismatch or invalid offset, wraparound split copy, then the
`last_write_time := sample_time + frames` store.  Returns the new state and
the `OSStatus` (0 on every path of this branch). -/
def processOutput (st : PrismDriver) (client_id frames sample_time : Nat)
    (input : List Int) : PrismDriver × Int :=
  let channels := st.num_channels
  let buffer_len := st.loopback_buffer.length
  let buffer_frames := buffer_len / channels
  let idx := slotIndex client_id
  let slot := st.client_slots.getD idx ClientSlot.init
  if slot.client_id ≠ client_id then (st, 0)
  else if slot.channel_offset < 2 ∨ slot.channel_offset + 1 ≥ channels then (st, 0)
  else
    let channel_offset := slot.channel_offset
    let w_pos := sample_time % buffer_frames
    let frames_until_wrap := buffer_frames - w_pos
    let buf :=
      if frames ≤ frames_until_wrap then
        writeLoop input channels channel_offset buffer_len w_pos 0 frames st.loopback_buffer
      else
        writeLoop input channels channel_offset buffer_len 0 frames_until_wrap
          (frames - frames_until_wrap)
          (writeLoop input channels channel_offset buffer_len w_pos 0 frames_until_wrap
            st.loopback_buffer)
    ({ st with
        loopback_buffer := buf,
        client_slots := st.client_slots.set idx
          { slot with last_write_time := sample_time + frames },
        is_buffer_clear := false }, 0)

/-- The raw full-bus copy of the ReadInput branch (driver.rs 1670-1683): the
two `copy_nonoverlapping` segments split at the wrap boundary. -/
def captureRaw (ring : List Int) (channels bufferFrames r_pos frames : Nat) : List Int :=
  let frames_until_wrap := bufferFrames - r_pos
  if frames ≤ frames_until_wrap then
    (ring.drop (r_pos * channels)).take (frames * channels)
  else
    ((ring.drop (r_pos * channels)).take (frames_until_wrap * channels))
      ++ ring.take ((frames - frames_until_wrap) * channels)

/-- The staleness-zeroing inner loop (driver.rs 1709-1713): zero output
channels `off` and `off+1` of every one of the `frames` frames. -/
def zeroPair (channels off : Nat) : Nat → List Int → List Int
  | 0, out => out
  | n + 1, out =>
    zeroPair channels off n ((out.set (n * channels + off) 0).set (n * channels + off + 1) 0)

/-- The staleness pass of the ReadInput branch (driver.rs 1687-1715): for
every slot, skip if unoccupied or invalidly routed, else zero its channel
pair when the read window extends beyond its `last_write_time`. -/
def stalenessPass (channels frames sample_time : Nat)
    (slots : List ClientSlot) (out : List Int) : List Int :=
  slots.foldl
    (fun acc slot =>
      if slot.client_id = 0 then acc
      else if slot.channel_offset < 2 ∨ slot.channel_offset + 1 ≥ channels then acc
      else if sample_time + frames > slot.last_write_time then
        zeroPair channels slot.channel_offset frames acc
      else acc)
    out

/-- The ReadInput (CaptureRead) branch of `do_io_operation`
(driver.rs 1652-1729): full interleaved copy out of the ring followed by the
staleness pass.  The branch never mutates the driver state. -/
def readInput (st : PrismDriver) (frames sample_time : Nat) : List Int :=
  let channels := st.num_channels
  let buffer_frames := st.loopback_buffer.length / channels
  let r_pos := sample_time % buffer_frames
  let raw := captureRaw st.loopback_buffer channels buffer_frames r_pos frames
  stalenessPass channels frames sample_time st.client_slots raw

/-- The slot a client id resolves to by direct indexing
(`let slot = &slots[idx]` with `idx = client_id & (MAX_CLIENTS - 1)`). -/
def clientSlotOf (st : PrismDriver) (client_id : Nat) : ClientSlot :=
  st.client_slots.getD (slotIndex client_id) ClientSlot.init

/-! ### Concrete driver states used to instantiate the theorems

Small states (few slots, a short ring) keep the instances kernel-evaluable;
the operations read all sizes from the state, exactly as the source reads
`num_channels` and `loopback_buffer.len()` from the driver. -/

/-- Four bus channels, a 4-frame ring, one empty slot and one active client
(id 1, pid 5) routed at offset 2. -/
def demoState : PrismDriver :=
  { loopback_buffer := List.replicate 16 0
    num_channels := 4
    client_slots := [ClientSlot.init,
      { client_id := 1, channel_offset := 2, pid := 5, last_write_time := 0 }]
    is_buffer_clear := true }

/-- Sixty-four bus channels, slot 1 occupied by client 1 (pid 5) with a nonzero
`last_write_time`. -/
def demoState64 : PrismDriver :=
  { loopback_buffer := List.replicate 128 0
    num_channels := 64
    client_slots := [ClientSlot.init,
      { client_id := 1, channel_offset := 0, pid := 5, last_write_time := 9 }]
    is_buffer_clear := true }

/-! ### Basic list and arithmetic helper lemmas -/

theorem getD_set_self {α : Type} {l : List α} {i : Nat} {a d : α} (h : i < l.length) :
    (l.set i a).getD i d = a := by
  rw [List.getD_eq_getElem?_getD, List.getElem?_set_self]
  · rfl
  · exact h

theorem getD_set_ne {α : Type} {l : List α} {i j : Nat} {a d : α} (h : i ≠ j) :
    (l.set i a).getD j d = l.getD j d := by
  rw [List.getD_eq_getElem?_getD, List.getElem?_set_ne h, ← List.getD_eq_getElem?_getD]

theorem getD_set_cases {α : Type} (l : List α) (i j : Nat) (a d : α) :
    (l.set i a).getD j d = a ∨ (l.set i a).getD j d = l.getD j d := by
  by_cases hij : i = j
  · subst hij
    by_cases hl : i < l.length
    · exact Or.inl (getD_set_self hl)
    · right
      rw [List.set_eq_of_length_le (Nat.le_of_not_lt hl)]
  · exact Or.inr (getD_set_ne hij)

theorem getD_eq_getElem {α : Type} {l : List α} {i : Nat} {d : α} (h : i < l.length) :
    l.getD i d = l[i] := by
  rw [List.getD_eq_getElem?_getD, List.getElem?_eq_getElem h]
  rfl

theorem getD_map_slot {l : List ClientSlot} {f : ClientSlot → ClientSlot} {idx : Nat}
    (h : idx < l.length) (d : ClientSlot) :
    (l.map f).getD idx d = f (l.getD idx d) := by
  rw [getD_eq_getElem (by simpa using h), getD_eq_getElem h]
  exact List.getElem_map f

theorem getD_drop (l : List Int) (m n : Nat) :
    (l.drop m).getD n 0 = l.getD (m + n) 0 := by
  rw [List.getD_eq_getElem?_getD, List.getD_eq_getElem?_getD, List.getElem?_drop]

theorem getD_take {l : List Int} {m n : Nat} (h : n < m) :
    (l.take m).getD n 0 = l.getD n 0 := by
  rw [List.getD_eq_getElem?_getD, List.getD_eq_getElem?_getD, List.getElem?_take]
  simp [h]

theorem getD_append_left {l₁ l₂ : List Int} {n : Nat} (h : n < l₁.length) :
    (l₁ ++ l₂).getD n 0 = l₁.getD n 0 := by
  rw [List.getD_eq_getElem?_getD, List.getD_eq_getElem?_getD, List.getElem?_append]
  simp [h]

theorem getD_append_right {l₁ l₂ : List Int} {n : Nat} (h : l₁.length ≤ n) :
    (l₁ ++ l₂).getD n 0 = l₂.getD (n - l₁.length) 0 := by
  rw [List.getD_eq_getElem?_getD, List.getD_eq_getElem?_getD, List.getElem?_append]
  simp [Nat.not_lt.mpr h]

/-- Interleaved-position decomposition: positions `frame * channels + chan`
with `chan < channels` determine the frame and the channel uniquely. -/
theorem frame_chan_eq_iff {ch a b j₁ j₂ : Nat} (h₁ : j₁ < ch) (h₂ : j₂ < ch) :
    a * ch + j₁ = b * ch + j₂ ↔ a = b ∧ j₁ = j₂ := by
  constructor
  · intro h
    have hch : 0 < ch := Nat.lt_of_le_of_lt (Nat.zero_le j₁) h₁
    have hdiv : a = b := by
      have ha : (a * ch + j₁) / ch = a := by
        rw [Nat.mul_comm a ch, Nat.mul_add_div hch, Nat.div_eq_of_lt h₁]
        omega
      have hb : (b * ch + j₂) / ch = b := by
        rw [Nat.mul_comm b ch, Nat.mul_add_div hch, Nat.div_eq_of_lt h₂]
        omega
      rw [← ha, ← hb, h]
    refine ⟨hdiv, ?_⟩
    subst hdiv
    omega
  · rintro ⟨rfl, rfl⟩
    rfl

theorem frame_pos_lt {fr j bf ch : Nat} (hf : fr < bf) (hj : j < ch) :
    fr * ch + j < bf * ch := by
  calc fr * ch + j < fr * ch + ch := by omega
    _ = (fr + 1) * ch := by ring
    _ ≤ bf * ch := Nat.mul_le_mul_right ch hf

theorem pair_pos_ne {ch off₁ off₂ a b : Nat} (h₁ : off₁ < ch) (h₂ : off₂ < ch) (hab : a ≠ b) :
    a * ch + off₁ ≠ b * ch + off₂ := by
  intro h
  exact hab ((frame_chan_eq_iff h₁ h₂).mp h).1

/-! ### `writeLoop` characterization -/

theorem writeFrame_length (input : List Int) (ch off L : Nat) (buf : List Int) (d s : Nat) :
    (writeFrame input ch off L buf d s).length = buf.length := by
  unfold writeFrame
  dsimp only
  split <;> simp

theorem writeLoop_length (input : List Int) (ch off L : Nat) (n : Nat) :
    ∀ (d s : Nat) (buf : List Int),
      (writeLoop input ch off L d s n buf).length = buf.length := by
  induction n with
  | zero => intro d s buf; rfl
  | succ m ih =>
    intro d s buf
    simp only [writeLoop]
    rw [ih, writeFrame_length]

theorem writeFrame_getD_ne {input : List Int} {ch off L : Nat} {buf : List Int} {d s p : Nat}
    (h₁ : p ≠ d * ch + off) (h₂ : p ≠ d * ch + off + 1) :
    (writeFrame input ch off L buf d s).getD p 0 = buf.getD p 0 := by
  unfold writeFrame
  dsimp only
  split
  · rw [getD_set_ne (Ne.symm h₂), getD_set_ne (Ne.symm h₁)]
  · rfl

theorem writeFrame_getD_hit {input : List Int} {ch off L : Nat} {buf : List Int} {d s : Nat}
    (hL : buf.length = L) (hin : d * ch + off + 1 < L) :
    (writeFrame input ch off L buf d s).getD (d * ch + off) 0 = input.getD (s * 2) 0 ∧
    (writeFrame input ch off L buf d s).getD (d * ch + off + 1) 0
      = input.getD (s * 2 + 1) 0 := by
  unfold writeFrame
  dsimp only
  rw [if_pos hin]
  constructor
  · rw [getD_set_ne (by omega)]
    exact getD_set_self (by rw [hL]; omega)
  · exact getD_set_self (by rw [List.length_set, hL]; omega)

theorem writeLoop_getD_ne (input : List Int) (ch off L : Nat) (n : Nat) :
    ∀ (d s p : Nat) (buf : List Int),
      (∀ i, i < n → p ≠ (d + i) * ch + off ∧ p ≠ (d + i) * ch + off + 1) →
      (writeLoop input ch off L d s n buf).getD p 0 = buf.getD p 0 := by
  induction n with
  | zero => intro d s p buf _; rfl
  | succ m ih =>
    intro d s p buf h
    simp only [writeLoop]
    have h0 := h 0 (Nat.succ_pos m)
    rw [Nat.add_zero] at h0
    rw [ih (d + 1) (s + 1) p _ ?_, writeFrame_getD_ne h0.1 h0.2]
    intro i hi
    have hnext := h (i + 1) (by omega)
    have e : d + (i + 1) = d + 1 + i := by omega
    rw [e] at hnext
    exact hnext

theorem writeLoop_getD_hit (input : List Int) (ch off L : Nat) (hoff : off + 1 < ch)
    (n : Nat) :
    ∀ (d s i : Nat) (buf : List Int), i < n → buf.length = L →
      (d + i) * ch + off + 1 < L →
      (writeLoop input ch off L d s n buf).getD ((d + i) * ch + off) 0
        = input.getD ((s + i) * 2) 0 ∧
      (writeLoop input ch off L d s n buf).getD ((d + i) * ch + off + 1) 0
        = input.getD ((s + i) * 2 + 1) 0 := by
  have hoff₁ : off < ch := by omega
  induction n with
  | zero => intro d s i buf hi; omega
  | succ m ih =>
    intro d s i buf hi hbuf hin
    simp only [writeLoop]
    cases i with
    | zero =>
      have hin' : d * ch + off + 1 < L := hin
      have hrest : ∀ i', i' < m →
          d * ch + off ≠ (d + 1 + i') * ch + off ∧
          d * ch + off ≠ (d + 1 + i') * ch + off + 1 := by
        intro i' _
        constructor
        · exact pair_pos_ne hoff₁ hoff₁ (by omega)
        · exact pair_pos_ne hoff₁ hoff (by omega)
      have hrest' : ∀ i', i' < m →
          d * ch + off + 1 ≠ (d + 1 + i') * ch + off ∧
          d * ch + off + 1 ≠ (d + 1 + i') * ch + off + 1 := by
        intro i' _
        constructor
        · exact pair_pos_ne hoff hoff₁ (by omega)
        · exact pair_pos_ne hoff hoff (by omega)
      refine ⟨?_, ?_⟩
      · show (writeLoop input ch off L (d + 1) (s + 1) m
            (writeFrame input ch off L buf d s)).getD (d * ch + off) 0
            = input.getD (s * 2) 0
        rw [writeLoop_getD_ne input ch off L m (d + 1) (s + 1) _ _ hrest]
        exact (writeFrame_getD_hit hbuf hin').1
      · show (writeLoop input ch off L (d + 1) (s + 1) m
            (writeFrame input ch off L buf d s)).getD (d * ch + off + 1) 0
            = input.getD (s * 2 + 1) 0
        rw [writeLoop_getD_ne input ch off L m (d + 1) (s + 1) _ _ hrest']
        exact (writeFrame_getD_hit hbuf hin').2
    | succ j =>
      have e : d + 1 + j = d + (j + 1) := by omega
      have e' : s + 1 + j = s + (j + 1) := by omega
      have hb : (d + 1 + j) * ch + off + 1 < L := by rw [e]; exact hin
      have hmain := ih (d + 1) (s + 1) j (writeFrame input ch off L buf d s)
        (Nat.lt_of_succ_lt_succ hi) (by rw [writeFrame_length]; exact hbuf) hb
      rw [e, e'] at hmain
      exact hmain

/-! ### `captureRaw` characterization -/

theorem captureRaw_length {ring : List Int} {ch bf r F : Nat}
    (hring : ring.length = bf * ch) (hr : r < bf) (hF : F ≤ bf) :
    (captureRaw ring ch bf r F).length = F * ch := by
  unfold captureRaw
  dsimp only
  split
  · rename_i h
    rw [List.length_take, List.length_drop, hring]
    have h1 : F * ch + r * ch ≤ bf * ch := by
      have h2 : (F + r) * ch ≤ bf * ch := Nat.mul_le_mul_right ch (by omega)
      rw [Nat.add_mul] at h2
      exact h2
    exact Nat.min_eq_left (by omega)
  · rename_i h
    rw [List.length_append, List.length_take, List.length_take, List.length_drop, hring]
    have e1 : (bf - r) * ch = bf * ch - r * ch := Nat.sub_mul bf r ch
    have h2 : (F - (bf - r)) * ch ≤ bf * ch := Nat.mul_le_mul_right ch (by omega)
    have h3 : r * ch ≤ bf * ch := Nat.mul_le_mul_right ch (by omega)
    have h4 : (bf - r) * ch + (F - (bf - r)) * ch = F * ch := by
      rw [← Nat.add_mul]
      congr 1
      omega
    rw [Nat.min_eq_left (by omega), Nat.min_eq_left h2]
    omega

theorem captureRaw_getD {ring : List Int} {ch bf r F i j : Nat}
    (hring : ring.length = bf * ch) (hr : r < bf) (hF : F ≤ bf)
    (hi : i < F) (hj : j < ch) :
    (captureRaw ring ch bf r F).getD (i * ch + j) 0
      = ring.getD (((r + i) % bf) * ch + j) 0 := by
  unfold captureRaw
  dsimp only
  split
  · rename_i h
    rw [getD_take (frame_pos_lt hi hj), getD_drop,
      Nat.mod_eq_of_lt (show r + i < bf by omega)]
    congr 1
    ring
  · rename_i h
    have hlen1 : ((ring.drop (r * ch)).take ((bf - r) * ch)).length = (bf - r) * ch := by
      rw [List.length_take, List.length_drop, hring, Nat.sub_mul]
      exact Nat.min_eq_left (Nat.le_refl _)
    by_cases hiw : i < bf - r
    · rw [getD_append_left (by rw [hlen1]; exact frame_pos_lt hiw hj),
        getD_take (frame_pos_lt hiw hj), getD_drop,
        Nat.mod_eq_of_lt (show r + i < bf by omega)]
      congr 1
      ring
    · have hge : bf - r ≤ i := Nat.le_of_not_lt hiw
      have hmul : (bf - r) * ch ≤ i * ch := Nat.mul_le_mul_right ch hge
      rw [getD_append_right (by rw [hlen1]; omega)]
      have e : i * ch + j - ((ring.drop (r * ch)).take ((bf - r) * ch)).length
          = (i - (bf - r)) * ch + j := by
        rw [hlen1]
        have h2 : (i - (bf - r)) * ch + (bf - r) * ch = i * ch := by
          rw [← Nat.add_mul]
          congr 1
          omega
        omega
      rw [e, getD_take (frame_pos_lt (show i - (bf - r) < F - (bf - r) by omega) hj)]
      have hmod : (r + i) % bf = i - (bf - r) := by
        have e2 : r + i = bf + (i - (bf - r)) := by omega
        rw [e2, Nat.add_mod_left]
        exact Nat.mod_eq_of_lt (by omega)
      rw [hmod]

/-! ### `zeroPair` / `stalenessPass` characterization -/

theorem zeroPair_length (ch off : Nat) (n : Nat) :
    ∀ out : List Int, (zeroPair ch off n out).length = out.length := by
  induction n with
  | zero => intro out; rfl
  | succ m ih =>
    intro out
    simp only [zeroPair]
    rw [ih]
    simp

theorem set_zero_getD_self (l : List Int) (q : Nat) : (l.set q 0).getD q 0 = 0 := by
  by_cases h : q < l.length
  · exact getD_set_self h
  · rw [List.set_eq_of_length_le (Nat.le_of_not_lt h), List.getD_eq_getElem?_getD,
      List.getElem?_eq_none (Nat.le_of_not_lt h)]
    rfl

theorem zeroPair_getD_cases (ch off : Nat) (n : Nat) :
    ∀ (out : List Int) (p : Nat),
      (zeroPair ch off n out).getD p 0 = 0 ∨
      (zeroPair ch off n out).getD p 0 = out.getD p 0 := by
  induction n with
  | zero => intro out p; right; rfl
  | succ m ih =>
    intro out p
    simp only [zeroPair]
    rcases ih ((out.set (m * ch + off) 0).set (m * ch + off + 1) 0) p with h | h
    · exact Or.inl h
    · rw [h]
      rcases getD_set_cases (out.set (m * ch + off) 0) (m * ch + off + 1) p 0 0 with h2 | h2
      · exact Or.inl h2
      · rw [h2]
        exact getD_set_cases out (m * ch + off) p 0 0

theorem zeroPair_getD_ne (ch off : Nat) (n : Nat) :
    ∀ (out : List Int) (p : Nat),
      (∀ i, i < n → p ≠ i * ch + off ∧ p ≠ i * ch + off + 1) →
      (zeroPair ch off n out).getD p 0 = out.getD p 0 := by
  induction n with
  | zero => intro out p _; rfl
  | succ m ih =>
    intro out p h
    simp only [zeroPair]
    rw [ih _ p fun i hi => h i (by omega)]
    have hm := h m (by omega)
    rw [getD_set_ne (Ne.symm hm.2), getD_set_ne (Ne.symm hm.1)]

theorem zeroPair_getD_hit (ch off : Nat) (hoff : off + 1 < ch) (n : Nat) :
    ∀ (out : List Int) (i : Nat), i < n →
      (zeroPair ch off n out).getD (i * ch + off) 0 = 0 ∧
      (zeroPair ch off n out).getD (i * ch + off + 1) 0 = 0 := by
  have hoff₁ : off < ch := by omega
  induction n with
  | zero => intro out i hi; omega
  | succ m ih =>
    intro out i hi
    simp only [zeroPair]
    by_cases him : i = m
    · subst him
      constructor
      · rw [zeroPair_getD_ne ch off _ _ _ fun i' hi' =>
          ⟨pair_pos_ne hoff₁ hoff₁ (by omega), pair_pos_ne hoff₁ hoff (by omega)⟩]
        rw [getD_set_ne (by omega)]
        exact set_zero_getD_self out (i * ch + off)
      · have hne : ∀ i', i' < i →
            i * ch + off + 1 ≠ i' * ch + off ∧ i * ch + off + 1 ≠ i' * ch + off + 1 :=
          fun i' hi' =>
            ⟨pair_pos_ne hoff hoff₁ (by omega), pair_pos_ne hoff hoff (by omega)⟩
        rw [zeroPair_getD_ne ch off _ _ _ hne]
        exact set_zero_getD_self _ (i * ch + off + 1)
    · exact ih _ i (by omega)

theorem stalenessPass_cons (ch F t : Nat) (a : ClientSlot) (l : List ClientSlot)
    (out : List Int) :
    stalenessPass ch F t (a :: l) out =
      stalenessPass ch F t l
        (if a.client_id = 0 then out
         else if a.channel_offset < 2 ∨ a.channel_offset + 1 ≥ ch then out
         else if t + F > a.last_write_time then zeroPair ch a.channel_offset F out
         else out) := rfl

theorem stalenessPass_getD_zero (ch F t : Nat) (slots : List ClientSlot) :
    ∀ (out : List Int) (p : Nat),
      out.getD p 0 = 0 → (stalenessPass ch F t slots out).getD p 0 = 0 := by
  induction slots with
  | nil => intro out p h; exact h
  | cons a l ih =>
    intro out p h
    rw [stalenessPass_cons]
    apply ih
    split
    · exact h
    · split
      · exact h
      · split
        · rcases zeroPair_getD_cases ch a.channel_offset F out p with h2 | h2
          · exact h2
          · rw [h2]; exact h
        · exact h

theorem stalenessPass_getD_ne (ch F t : Nat) (slots : List ClientSlot) :
    ∀ (out : List Int) (p : Nat),
      (∀ s ∈ slots, s.client_id ≠ 0 →
        ¬(s.channel_offset < 2 ∨ s.channel_offset + 1 ≥ ch) →
        t + F > s.last_write_time →
        ∀ i, i < F → p ≠ i * ch + s.channel_offset ∧ p ≠ i * ch + s.channel_offset + 1) →
      (stalenessPass ch F t slots out).getD p 0 = out.getD p 0 := by
  induction slots with
  | nil => intro out p _; rfl
  | cons a l ih =>
    intro out p h
    rw [stalenessPass_cons]
    rw [ih _ p fun s hs => h s (List.mem_cons_of_mem a hs)]
    split
    · rfl
    · split
      · rfl
      · split
        · rename_i h1 h2 h3
          exact zeroPair_getD_ne ch a.channel_offset F out p
            (h a (List.mem_cons_self a l) h1 h2 h3)
        · rfl

theorem stalenessPass_zeroes (ch F t : Nat) (slots : List ClientSlot) :
    ∀ (out : List Int) (s : ClientSlot), s ∈ slots → s.client_id ≠ 0 →
      2 ≤ s.channel_offset → s.channel_offset + 1 < ch →
      t + F > s.last_write_time →
      ∀ i, i < F →
        (stalenessPass ch F t slots out).getD (i * ch + s.channel_offset) 0 = 0 ∧
        (stalenessPass ch F t slots out).getD (i * ch + s.channel_offset + 1) 0 = 0 := by
  induction slots with
  | nil => intro out s hs; exact absurd hs (List.not_mem_nil s)
  | cons a l ih =>
    intro out s hs hid hoff2 hoffc hstale i hi
    rcases List.mem_cons.mp hs with rfl | hmem
    · rw [stalenessPass_cons, if_neg hid, if_neg (by omega), if_pos hstale]
      have hz := zeroPair_getD_hit ch s.channel_offset hoffc F out i hi
      exact ⟨stalenessPass_getD_zero ch F t l _ _ hz.1,
        stalenessPass_getD_zero ch F t l _ _ hz.2⟩
    · rw [stalenessPass_cons]
      exact ih _ s hmem hid hoff2 hoffc hstale i hi

theorem stalenessPass_length (ch F t : Nat) (slots : List ClientSlot) :
    ∀ out : List Int, (stalenessPass ch F t slots out).length = out.length := by
  induction slots with
  | nil => intro out; rfl
  | cons a l ih =>
    intro out
    rw [stalenessPass_cons, ih]
    split
    · rfl
    · split
      · rfl
      · split
        · exact zeroPair_length ch a.channel_offset F out
        · rfl

/-! ### `processOutput` / `readInput` characterization -/

theorem processOutput_engaged (st : PrismDriver) (c F t : Nat) (input : List Int)
    (hmatch : (clientSlotOf st c).client_id = c)
    (hoff2 : 2 ≤ (clientSlotOf st c).channel_offset)
    (hoffc : (clientSlotOf st c).channel_offset + 1 < st.num_channels) :
    processOutput st c F t input =
      ({ st with
         loopback_buffer :=
           if F ≤ st.loopback_buffer.length / st.num_channels
                 - t % (st.loopback_buffer.length / st.num_channels) then
             writeLoop input st.num_channels (clientSlotOf st c).channel_offset
               st.loopback_buffer.length
               (t % (st.loopback_buffer.length / st.num_channels)) 0 F st.loopback_buffer
           else
             writeLoop input st.num_channels (clientSlotOf st c).channel_offset
               st.loopback_buffer.length 0
               (st.loopback_buffer.length / st.num_channels
                 - t % (st.loopback_buffer.length / st.num_channels))
               (F - (st.loopback_buffer.length / st.num_channels
                 - t % (st.loopback_buffer.length / st.num_channels)))
               (writeLoop input st.num_channels (clientSlotOf st c).channel_offset
                 st.loopback_buffer.length
                 (t % (st.loopback_buffer.length / st.num_channels)) 0
                 (st.loopback_buffer.length / st.num_channels
                   - t % (st.loopback_buffer.length / st.num_channels)) st.loopback_buffer),
         client_slots := st.client_slots.set (slotIndex c)
           { clientSlotOf st c with last_write_time := t + F },
         is_buffer_clear := false }, 0) := by
  unfold clientSlotOf at hmatch hoff2 hoffc
  unfold processOutput clientSlotOf
  rw [if_neg (not_not_intro hmatch), if_neg (by omega)]

theorem processOutput_length (st : PrismDriver) (c F t : Nat) (input : List Int) :
    (processOutput st c F t input).1.loopback_buffer.length
      = st.loopback_buffer.length := by
  unfold processOutput
  dsimp only
  split
  · rfl
  split
  · rfl
  dsimp only
  split
  · exact writeLoop_length _ _ _ _ _ _ _ _
  · rw [writeLoop_length, writeLoop_length]

theorem readInput_def (st : PrismDriver) (F t : Nat) :
    readInput st F t =
      stalenessPass st.num_channels F t st.client_slots
        (captureRaw st.loopback_buffer st.num_channels
          (st.loopback_buffer.length / st.num_channels)
          (t % (st.loopback_buffer.length / st.num_channels)) F) := rfl

/-! ### Routing-control and registry claims (C4—C8) -/

/-- C4: a routing request whose channel offset is odd, or whose `offset + 1`
is greater than or equal to the bus channel count, is rejected with the
invalid-offset status (`kAudioHardwareIllegalOperationError`, the one error
the driver returns for a bad offset), and the driver state — in particular
every slot — is left completely unmutated; this holds for pid-targeted and
broadcast requests alike (the validation precedes the pid dispatch). -/
theorem claim_C4 (st : PrismDriver) (pid : Int) (offset : Nat)
    (h : offset % 2 = 1 ∨ offset + 1 ≥ st.num_channels) :
    set_property_data_rout st pid offset =
      { state := st, status := kAudioHardwareIllegalOperationError,
        notified := false } := by
  unfold set_property_data_rout
  rw [if_pos (by omega)]

theorem claim_C4_witness :
    set_property_data_rout demoState64 7 1 =
      { state := demoState64, status := kAudioHardwareIllegalOperationError,
        notified := false } ∧
    set_property_data_rout demoState64 (-1) 63 =
      { state := demoState64, status := kAudioHardwareIllegalOperationError,
        notified := false } :=
  ⟨claim_C4 demoState64 7 1 (Or.inl (by decide)),
   claim_C4 demoState64 (-1) 63 (Or.inr (by decide))⟩

/-- C5 counterexample: the broadcast loop stores the offset into **every**
slot, with no `client_id != 0` guard.  In a state whose slot 0 is inactive
(`client_id = 0`, `channel_offset = 0`), a broadcast of the valid offset 4
changes that inactive slot's `channel_offset` to 4 — the claim that inactive
slots are left untouched is false. -/
theorem claim_C5_counterexample :
    (demoState64.client_slots.getD 0 ClientSlot.init).client_id = 0 ∧
    ¬ (((set_property_data_rout demoState64 (-1) 4).state.client_slots.getD 0
          ClientSlot.init).channel_offset
        = (demoState64.client_slots.getD 0 ClientSlot.init).channel_offset) := by
  constructor
  · decide
  · decide

/-- C5 (amended): a broadcast request (`pid = -1`) with a valid offset `o`
sets `channel_offset := o` in **every** slot of the registry — active and
inactive alike — returns success and posts a client-list notification. -/
theorem claim_C5 (st : PrismDriver) (o : Nat)
    (h2 : o % 2 = 0) (hc : o + 1 < st.num_channels) :
    set_property_data_rout st (-1) o =
      { state := { st with client_slots :=
          st.client_slots.map fun s => { s with channel_offset := o } },
        status := 0, notified := true } := by
  unfold set_property_data_rout
  rw [if_neg (by omega), if_pos rfl]

theorem claim_C5_witness :
    set_property_data_rout demoState64 (-1) 4 =
      { state := { demoState64 with client_slots :=
          demoState64.client_slots.map fun s => { s with channel_offset := 4 } },
        status := 0, notified := true } :=
  claim_C5 demoState64 4 (by decide) (by decide)

/-- C6 counterexample: a pid-targeted request (pid 7) with the valid offset 4
that matches **zero** slots returns `OSStatus` 0 — the very same status a
matching, successful update (pid 5) returns — so the caller receives no
`NoSuchClient` error and cannot distinguish the no-match case from success
through the return value. -/
theorem claim_C6_counterexample :
    (∀ s ∈ demoState64.client_slots, s.pid ≠ 7) ∧
    (set_property_data_rout demoState64 7 4).status = 0 ∧
    (set_property_data_rout demoState64 5 4).status = 0 := by
  refine ⟨?_, ?_, ?_⟩
  · decide
  · decide
  · decide

/-- C6 (amended): a pid-targeted routing request with a valid offset that
matches zero registry slots returns `OSStatus` 0 (indistinguishable from a
successful update), mutates no slot, and posts no client-list notification;
the failure is only logged. -/
theorem claim_C6 (st : PrismDriver) (pid : Int) (offset : Nat)
    (h2 : offset % 2 = 0) (hc : offset + 1 < st.num_channels)
    (hb : pid ≠ -1) (h0 : pid ≠ 0)
    (hnone : ∀ s ∈ st.client_slots, s.pid ≠ pid) :
    set_property_data_rout st pid offset =
      { state := st, status := 0, notified := false } := by
  unfold set_property_data_rout
  rw [if_neg (by omega), if_neg hb, if_pos h0]
  have hmap : (st.client_slots.map fun s =>
      if s.pid = pid then { s with channel_offset := offset } else s)
      = st.client_slots := by
    have := List.map_congr_left (l := st.client_slots)
      (f := fun s => if s.pid = pid then { s with channel_offset := offset } else s)
      (g := id) (fun a ha => by
        dsimp only
        rw [if_neg (hnone a ha)]
        rfl)
    rw [this, List.map_id]
  have hfound : (st.client_slots.any fun s => decide (s.pid = pid)) = false := by
    simp only [List.any_eq_false, decide_eq_true_eq]
    exact hnone
  rw [hmap, hfound]

theorem claim_C6_witness :
    set_property_data_rout demoState64 7 4 =
      { state := demoState64, status := 0, notified := false } :=
  claim_C6 demoState64 7 4 (by decide) (by decide) (by decide) (by decide)
    (by decide)

/-- C7 counterexample: `add_device_client` (join) never touches
`last_write_time`.  Joining client 1 into a slot whose stored
`last_write_time` is 9 leaves it at 9, not 0 — the claim that join resets
`last_write_time` to 0 is false. -/
theorem claim_C7_counterexample :
    ¬ (((add_device_client demoState64 1 7).client_slots.getD
          (slotIndex 1) ClientSlot.init).last_write_time = 0) := by
  decide

/-- C7 (amended): for every nonzero client id, join stores the client id and
pid into slot `client_id & (CAPACITY-1)` and resets that slot's
`channel_offset` to 0, but leaves the slot's `last_write_time` unchanged
(the source never writes that field on join). -/
theorem claim_C7 (st : PrismDriver) (c : Nat) (p : Int) (hc : c ≠ 0) :
    add_device_client st c p =
      { st with
        client_slots := st.client_slots.set (slotIndex c)
          ({ client_id := c, channel_offset := 0, pid := p,
             last_write_time :=
               (st.client_slots.getD (slotIndex c) ClientSlot.init).last_write_time }) } :=
  rfl

theorem claim_C7_witness :
    add_device_client demoState64 1 7 =
      { demoState64 with
        client_slots := demoState64.client_slots.set (slotIndex 1)
          ({ client_id := 1, channel_offset := 0, pid := 7,
             last_write_time :=
               (demoState64.client_slots.getD (slotIndex 1)
                 ClientSlot.init).last_write_time }) } :=
  claim_C7 demoState64 1 7 (by decide)

theorem remove_device_client_mismatch {st : PrismDriver} {c : Nat} {p : Int}
    (h : (st.client_slots.getD (slotIndex c) ClientSlot.init).client_id ≠ c) :
    remove_device_client st c p = st := by
  unfold remove_device_client
  rw [if_neg h]

theorem remove_device_client_match {st : PrismDriver} {c : Nat} {p : Int}
    (h : (st.client_slots.getD (slotIndex c) ClientSlot.init).client_id = c) :
    remove_device_client st c p =
      { st with
        client_slots := st.client_slots.set (slotIndex c)
          ({ client_id := 0, channel_offset := 0, pid := 0,
             last_write_time :=
               (st.client_slots.getD (slotIndex c) ClientSlot.init).last_write_time }) } := by
  unfold remove_device_client
  rw [if_pos h]

/-- C8: leave is conditional and idempotent: it clears the slot (client id,
offset and pid set to 0, `last_write_time` untouched) only when the slot's
stored client id equals the caller's; otherwise — after a double leave or
after a different client has joined the same slot — it is a no-op leaving
every field of the occupant's slot unchanged. -/
theorem claim_C8 (st : PrismDriver) (c : Nat) (p : Int) :
    ((st.client_slots.getD (slotIndex c) ClientSlot.init).client_id ≠ c →
      remove_device_client st c p = st) ∧
    ((st.client_slots.getD (slotIndex c) ClientSlot.init).client_id = c →
      remove_device_client st c p =
        { st with
          client_slots := st.client_slots.set (slotIndex c)
            ({ client_id := 0, channel_offset := 0, pid := 0,
               last_write_time :=
                 (st.client_slots.getD (slotIndex c) ClientSlot.init).last_write_time }) }) ∧
    remove_device_client (remove_device_client st c p) c p
      = remove_device_client st c p := by
  refine ⟨fun h => remove_device_client_mismatch h,
    fun h => remove_device_client_match h, ?_⟩
  by_cases h : (st.client_slots.getD (slotIndex c) ClientSlot.init).client_id = c
  · rw [remove_device_client_match h]
    by_cases hlen : slotIndex c < st.client_slots.length
    · have hget : (({ st with
          client_slots := st.client_slots.set (slotIndex c)
            ({ client_id := 0, channel_offset := 0, pid := 0,
               last_write_time :=
                 (st.client_slots.getD (slotIndex c) ClientSlot.init).last_write_time })
          }).client_slots.getD (slotIndex c) ClientSlot.init)
          = { client_id := 0, channel_offset := 0, pid := 0,
              last_write_time :=
                (st.client_slots.getD (slotIndex c) ClientSlot.init).last_write_time } :=
        getD_set_self hlen
      by_cases hc0 : c = 0
      · subst hc0
        rw [remove_device_client_match (by rw [hget])]
        rw [hget, List.set_set]
      · exact remove_device_client_mismatch (by rw [hget]; exact fun hh => hc0 hh.symm)
    · have hle := Nat.le_of_not_lt hlen
      show remove_device_client
          { st with client_slots := st.client_slots.set (slotIndex c) _ } c p = _
      rw [List.set_eq_of_length_le hle]
      show remove_device_client st c p = _
      rw [remove_device_client_match h, List.set_eq_of_length_le hle]
  · rw [remove_device_client_mismatch h]
    exact remove_device_client_mismatch h

theorem claim_C8_witness :
    remove_device_client demoState 1 5 =
      { demoState with
        client_slots := demoState.client_slots.set (slotIndex 1)
          ({ client_id := 0, channel_offset := 0, pid := 0,
             last_write_time :=
               (demoState.client_slots.getD (slotIndex 1)
                 ClientSlot.init).last_write_time }) } ∧
    remove_device_client (remove_device_client demoState 1 5) 1 5
      = remove_device_client demoState 1 5 :=
  ⟨(claim_C8 demoState 1 5).2.1 (by decide), (claim_C8 demoState 1 5).2.2⟩

/-- C9: a ClientWrite whose slot's stored client id does not match the
caller's, or whose `channel_offset` is below 2 or would overrun the bus, is
silently dropped: the returned state is exactly the input state (ring buffer
and `last_write_time` untouched) and the operation still reports success
(`OSStatus` 0). -/
theorem claim_C9 (st : PrismDriver) (c F t : Nat) (input : List Int)
    (h : (st.client_slots.getD (slotIndex c) ClientSlot.init).client_id ≠ c ∨
         (st.client_slots.getD (slotIndex c) ClientSlot.init).channel_offset < 2 ∨
         (st.client_slots.getD (slotIndex c) ClientSlot.init).channel_offset + 1
           ≥ st.num_channels) :
    processOutput st c F t input = (st, 0) := by
  unfold processOutput
  by_cases h1 : (st.client_slots.getD (slotIndex c) ClientSlot.init).client_id ≠ c
  · rw [if_pos h1]
  · rw [if_neg h1, if_pos (by tauto)]

theorem claim_C9_witness :
    processOutput demoState64 1 4 0 [3, 3, 3, 3, 3, 3, 3, 3] = (demoState64, 0) :=
  claim_C9 demoState64 1 4 0 [3, 3, 3, 3, 3, 3, 3, 3]
    (Or.inr (Or.inl (by decide)))

/-! ### Capture-read staleness claims (C10, C2) -/

/-- C10: during a CaptureRead of `F` frames at time `t`, for each active
slot with a validly-assigned offset, if `t + F` exceeds that slot's
`last_write_time` by any amount, then all `F` frames of that slot's two
channels in the output are zeroed — including any prefix of the window the
`last_write_time` does cover; the zeroing is never partial within one call
(the condition is evaluated once per slot, the loop then zeroes every
frame). -/
theorem claim_C10 (st : PrismDriver) (F t : Nat) (s : ClientSlot)
    (hdvd : st.num_channels ∣ st.loopback_buffer.length)
    (hbf : 0 < st.loopback_buffer.length / st.num_channels)
    (hF : F ≤ st.loopback_buffer.length / st.num_channels)
    (hs : s ∈ st.client_slots) (hid : s.client_id ≠ 0)
    (hoff2 : 2 ≤ s.channel_offset)
    (hoffc : s.channel_offset + 1 < st.num_channels)
    (hstale : s.last_write_time < t + F) :
    (readInput st F t).length = F * st.num_channels ∧
    ∀ i, i < F →
      (readInput st F t).getD (i * st.num_channels + s.channel_offset) 0 = 0 ∧
      (readInput st F t).getD (i * st.num_channels + s.channel_offset + 1) 0 = 0 := by
  rw [readInput_def]
  have hring : st.loopback_buffer.length
      = (st.loopback_buffer.length / st.num_channels) * st.num_channels :=
    (Nat.div_mul_cancel hdvd).symm
  constructor
  · rw [stalenessPass_length,
      captureRaw_length hring (Nat.mod_lt t hbf) hF]
  · intro i hi
    exact stalenessPass_zeroes st.num_channels F t st.client_slots _ s hs hid
      hoff2 hoffc hstale i hi

theorem claim_C10_witness :
    (readInput demoState 2 1).length = 2 * demoState.num_channels ∧
    ∀ i, i < 2 →
      (readInput demoState 2 1).getD (i * demoState.num_channels + 2) 0 = 0 ∧
      (readInput demoState 2 1).getD (i * demoState.num_channels + 2 + 1) 0 = 0 :=
  claim_C10 demoState 2 1
    { client_id := 1, channel_offset := 2, pid := 5, last_write_time := 0 }
    (by decide) (by decide) (by decide) (by decide) (by decide) (by decide)
    (by decide) (by decide)

/-- C2: staleness zeroing — after an active, validly-routed client writes
`F` frames at `t0`, a CaptureRead of `F'` frames for a window starting
strictly after `t0 + F` (no intervening write by that client) yields zeros
in that client's two channels for every frame of the window, not the
samples written at `t0`. -/
theorem claim_C2 (st : PrismDriver) (c F t0 F' t : Nat) (input : List Int)
    (hmatch : (clientSlotOf st c).client_id = c)
    (hid : c ≠ 0)
    (hoff2 : 2 ≤ (clientSlotOf st c).channel_offset)
    (hoffc : (clientSlotOf st c).channel_offset + 1 < st.num_channels)
    (hdvd : st.num_channels ∣ st.loopback_buffer.length)
    (hbf : 0 < st.loopback_buffer.length / st.num_channels)
    (hF' : F' ≤ st.loopback_buffer.length / st.num_channels)
    (hafter : t0 + F < t) :
    (readInput (processOutput st c F t0 input).1 F' t).length
      = F' * st.num_channels ∧
    ∀ i, i < F' →
      (readInput (processOutput st c F t0 input).1 F' t).getD
        (i * st.num_channels + (clientSlotOf st c).channel_offset) 0 = 0 ∧
      (readInput (processOutput st c F t0 input).1 F' t).getD
        (i * st.num_channels + (clientSlotOf st c).channel_offset + 1) 0 = 0 := by
  have hlen : slotIndex c < st.client_slots.length := by
    by_contra hnl
    have hinit : clientSlotOf st c = ClientSlot.init := by
      unfold clientSlotOf
      rw [List.getD_eq_getElem?_getD, List.getElem?_eq_none (Nat.le_of_not_lt hnl)]
      rfl
    rw [hinit] at hoff2
    exact absurd hoff2 (by decide)
  have hres := processOutput_engaged st c F t0 input hmatch hoff2 hoffc
  have hch : (processOutput st c F t0 input).1.num_channels = st.num_channels := by
    rw [hres]
  have hblen : (processOutput st c F t0 input).1.loopback_buffer.length
      = st.loopback_buffer.length := processOutput_length st c F t0 input
  have hslots : (processOutput st c F t0 input).1.client_slots
      = st.client_slots.set (slotIndex c)
        { clientSlotOf st c with last_write_time := t0 + F } := by
    rw [hres]
  have hring : st.loopback_buffer.length
      = (st.loopback_buffer.length / st.num_channels) * st.num_channels :=
    (Nat.div_mul_cancel hdvd).symm
  have hmem : ({ clientSlotOf st c with last_write_time := t0 + F } : ClientSlot)
      ∈ (processOutput st c F t0 input).1.client_slots := by
    rw [hslots]
    have hlt : slotIndex c < (st.client_slots.set (slotIndex c)
        { clientSlotOf st c with last_write_time := t0 + F }).length := by
      rw [List.length_set]
      exact hlen
    have heq := List.getElem_set_self (l := st.client_slots) (i := slotIndex c)
      (a := { clientSlotOf st c with last_write_time := t0 + F }) (h := hlt)
    have hmem' := List.getElem_mem hlt
    rw [heq] at hmem'
    exact hmem'
  rw [readInput_def, hch, hblen, hslots]
  constructor
  · rw [stalenessPass_length,
      captureRaw_length (hblen.trans hring) (Nat.mod_lt t hbf) hF']
  · intro i hi
    have hz := stalenessPass_zeroes st.num_channels F' t
      (st.client_slots.set (slotIndex c)
        { clientSlotOf st c with last_write_time := t0 + F })
      (captureRaw (processOutput st c F t0 input).1.loopback_buffer
        st.num_channels (st.loopback_buffer.length / st.num_channels)
        (t % (st.loopback_buffer.length / st.num_channels)) F')
      { clientSlotOf st c with last_write_time := t0 + F }
      (by rw [← hslots]; exact hmem)
      (by show (clientSlotOf st c).client_id ≠ 0; rw [hmatch]; exact hid)
      hoff2 hoffc
      (by show t + F' > t0 + F; omega) i hi
    exact hz

theorem claim_C2_witness :
    (readInput (processOutput demoState 1 1 0 [7, 8]).1 2 2).length
      = 2 * demoState.num_channels ∧
    ∀ i, i < 2 →
      (readInput (processOutput demoState 1 1 0 [7, 8]).1 2 2).getD
        (i * demoState.num_channels
          + (clientSlotOf demoState 1).channel_offset) 0 = 0 ∧
      (readInput (processOutput demoState 1 1 0 [7, 8]).1 2 2).getD
        (i * demoState.num_channels
          + (clientSlotOf demoState 1).channel_offset + 1) 0 = 0 :=
  claim_C2 demoState 1 1 0 2 2 [7, 8] (by decide) (by decide) (by decide)
    (by decide) (by decide) (by decide) (by decide) (by decide)

/-! ### The written ring region after one engaged ClientWrite -/

theorem chan_pos_ne {ch off₁ off₂ a b : Nat} (h₁ : off₁ < ch) (h₂ : off₂ < ch)
    (hoo : off₁ ≠ off₂) : a * ch + off₁ ≠ b * ch + off₂ := by
  intro h
  exact hoo ((frame_chan_eq_iff h₁ h₂).mp h).2

/-- Reading back the wraparound split copy: frame `i` of the written window
lands at ring frame `(w + i) % bf`, channels `off` and `off + 1`, and holds
source frame `i`. -/
theorem writtenBuf_getD {input buf : List Int} {ch off L bf w F i : Nat}
    (hL : buf.length = L) (hLbf : L = bf * ch)
    (hoff : off + 1 < ch) (hw : w < bf) (hF : F ≤ bf) (hi : i < F) :
    (if F ≤ bf - w then writeLoop input ch off L w 0 F buf
     else writeLoop input ch off L 0 (bf - w) (F - (bf - w))
       (writeLoop input ch off L w 0 (bf - w) buf)).getD
      (((w + i) % bf) * ch + off) 0 = input.getD (i * 2) 0 ∧
    (if F ≤ bf - w then writeLoop input ch off L w 0 F buf
     else writeLoop input ch off L 0 (bf - w) (F - (bf - w))
       (writeLoop input ch off L w 0 (bf - w) buf)).getD
      (((w + i) % bf) * ch + off + 1) 0 = input.getD (i * 2 + 1) 0 := by
  have hoff₁ : off < ch := by omega
  split
  · rename_i hnw
    rw [Nat.mod_eq_of_lt (show w + i < bf by omega)]
    have hhit := writeLoop_getD_hit input ch off L hoff F w 0 i buf hi hL
      (by rw [hLbf]; exact frame_pos_lt (show w + i < bf by omega) hoff)
    rw [Nat.zero_add] at hhit
    exact hhit
  · rename_i hnw
    by_cases hiw : i < bf - w
    · rw [Nat.mod_eq_of_lt (show w + i < bf by omega)]
      have hinner := writeLoop_getD_hit input ch off L hoff (bf - w) w 0 i buf hiw hL
        (by rw [hLbf]; exact frame_pos_lt (show w + i < bf by omega) hoff)
      rw [Nat.zero_add] at hinner
      have houter₁ : ∀ i₂, i₂ < F - (bf - w) →
          (w + i) * ch + off ≠ (0 + i₂) * ch + off ∧
          (w + i) * ch + off ≠ (0 + i₂) * ch + off + 1 := by
        intro i₂ hi₂
        constructor
        · exact pair_pos_ne hoff₁ hoff₁ (by omega)
        · exact pair_pos_ne hoff₁ hoff (by omega)
      have houter₂ : ∀ i₂, i₂ < F - (bf - w) →
          (w + i) * ch + off + 1 ≠ (0 + i₂) * ch + off ∧
          (w + i) * ch + off + 1 ≠ (0 + i₂) * ch + off + 1 := by
        intro i₂ hi₂
        constructor
        · exact pair_pos_ne hoff hoff₁ (by omega)
        · exact pair_pos_ne hoff hoff (by omega)
      constructor
      · rw [writeLoop_getD_ne input ch off L (F - (bf - w)) 0 (bf - w) _ _ houter₁]
        exact hinner.1
      · rw [writeLoop_getD_ne input ch off L (F - (bf - w)) 0 (bf - w) _ _ houter₂]
        exact hinner.2
    · have hge : bf - w ≤ i := Nat.le_of_not_lt hiw
      have hmod : (w + i) % bf = i - (bf - w) := by
        have e2 : w + i = bf + (i - (bf - w)) := by omega
        rw [e2, Nat.add_mod_left]
        exact Nat.mod_eq_of_lt (by omega)
      rw [hmod]
      have hlen' : (writeLoop input ch off L w 0 (bf - w) buf).length = L := by
        rw [writeLoop_length]
        exact hL
      have hhit := writeLoop_getD_hit input ch off L hoff (F - (bf - w)) 0 (bf - w)
        (i - (bf - w)) (writeLoop input ch off L w 0 (bf - w) buf)
        (by omega) hlen'
        (by rw [hLbf]
            exact frame_pos_lt (show 0 + (i - (bf - w)) < bf by omega) hoff)
      rw [Nat.zero_add] at hhit
      have hsrc : bf - w + (i - (bf - w)) = i := by omega
      rw [hsrc] at hhit
      exact hhit

/-- The copy loop only reads the source frames `s..s+n-1`; two loops over
sources that agree frame-by-frame write the same buffer. -/
theorem writeLoop_congr {input₁ input₂ : List Int} {ch off L : Nat} (n : Nat) :
    ∀ (d s₁ s₂ : Nat) (buf : List Int),
      (∀ i, i < n →
        input₁.getD ((s₁ + i) * 2) 0 = input₂.getD ((s₂ + i) * 2) 0 ∧
        input₁.getD ((s₁ + i) * 2 + 1) 0 = input₂.getD ((s₂ + i) * 2 + 1) 0) →
      writeLoop input₁ ch off L d s₁ n buf = writeLoop input₂ ch off L d s₂ n buf := by
  induction n with
  | zero => intro d s₁ s₂ buf _; rfl
  | succ m ih =>
    intro d s₁ s₂ buf h
    simp only [writeLoop]
    have e1 : input₁.getD (s₁ * 2) 0 = input₂.getD (s₂ * 2) 0 :=
      (h 0 (Nat.succ_pos m)).1
    have e2 : input₁.getD (s₁ * 2 + 1) 0 = input₂.getD (s₂ * 2 + 1) 0 :=
      (h 0 (Nat.succ_pos m)).2
    have hframe : writeFrame input₁ ch off L buf d s₁
        = writeFrame input₂ ch off L buf d s₂ := by
      unfold writeFrame
      rw [e1, e2]
    rw [hframe]
    apply ih
    intro i hi
    have := h (i + 1) (by omega)
    have es₁ : s₁ + (i + 1) = s₁ + 1 + i := by omega
    have es₂ : s₂ + (i + 1) = s₂ + 1 + i := by omega
    rw [es₁, es₂] at this
    exact this

/-! ### C1: round-trip routing -/

/-- C1 (amended): round-trip routing.  After a pid-targeted
`apply_routing(p, o)` with an even offset `2 ≤ o`, `o + 1 < channel_count`
assigns offset `o` to a joined client's slot, a ClientWrite of `F` frames at
time `t` followed by a CaptureRead over the same window `[t, t+F)` yields
the written samples at bus channels `o` and `o+1` of the output, and yields
zeros in every other active client's validly-assigned channel pair that has
no write covering the window.  Amendments relative to the claim as stated:
`o ≥ 2` is required (offsets 0—1 are accepted by the routing validation but
silently dropped by the write path, so `o = 0` does not round-trip — see the
counterexample); additionally no other registry slot may hold the routed
pid, no other active valid stale slot's channel pair may overlap
`{o, o+1}` (the staleness pass would zero the overlap), and the window must
fit the ring (`F ≤ total_frames`). -/
theorem claim_C1 (st : PrismDriver) (c : Nat) (p : Int) (o F t : Nat)
    (input : List Int)
    (hmatch : (clientSlotOf st c).client_id = c)
    (hid : c ≠ 0)
    (hpid : (clientSlotOf st c).pid = p)
    (hpb : p ≠ -1) (hp0 : p ≠ 0)
    (ho2 : 2 ≤ o) (hoe : o % 2 = 0) (hoc : o + 1 < st.num_channels)
    (huniq : ∀ j, j < st.client_slots.length → j ≠ slotIndex c →
      (st.client_slots.getD j ClientSlot.init).pid ≠ p)
    (hdisj : ∀ j, j < st.client_slots.length → j ≠ slotIndex c →
      (st.client_slots.getD j ClientSlot.init).client_id ≠ 0 →
      2 ≤ (st.client_slots.getD j ClientSlot.init).channel_offset →
      (st.client_slots.getD j ClientSlot.init).channel_offset + 1
        < st.num_channels →
      (st.client_slots.getD j ClientSlot.init).last_write_time < t + F →
      (st.client_slots.getD j ClientSlot.init).channel_offset + 1 < o ∨
        o + 1 < (st.client_slots.getD j ClientSlot.init).channel_offset)
    (hdvd : st.num_channels ∣ st.loopback_buffer.length)
    (hbf : 0 < st.loopback_buffer.length / st.num_channels)
    (hF : F ≤ st.loopback_buffer.length / st.num_channels) :
    (set_property_data_rout st p o).status = 0 ∧
    (∀ i, i < F →
      (readInput (processOutput (set_property_data_rout st p o).state c F t
          input).1 F t).getD (i * st.num_channels + o) 0
        = input.getD (i * 2) 0 ∧
      (readInput (processOutput (set_property_data_rout st p o).state c F t
          input).1 F t).getD (i * st.num_channels + (o + 1)) 0
        = input.getD (i * 2 + 1) 0) ∧
    (∀ s ∈ (processOutput (set_property_data_rout st p o).state c F t
        input).1.client_slots,
      s.client_id ≠ 0 → 2 ≤ s.channel_offset →
      s.channel_offset + 1 < st.num_channels → s.last_write_time < t + F →
      ∀ i, i < F →
        (readInput (processOutput (set_property_data_rout st p o).state c F t
            input).1 F t).getD (i * st.num_channels + s.channel_offset) 0 = 0 ∧
        (readInput (processOutput (set_property_data_rout st p o).state c F t
            input).1 F t).getD
          (i * st.num_channels + s.channel_offset + 1) 0 = 0) := by
  have hlen : slotIndex c < st.client_slots.length := by
    by_contra hnl
    have hinit : clientSlotOf st c = ClientSlot.init := by
      unfold clientSlotOf
      rw [List.getD_eq_getElem?_getD, List.getElem?_eq_none (Nat.le_of_not_lt hnl)]
      rfl
    rw [hinit] at hmatch
    exact hid hmatch.symm
  have hr : set_property_data_rout st p o =
      { state := { st with client_slots := st.client_slots.map fun s =>
          if s.pid = p then { s with channel_offset := o } else s },
        status := 0,
        notified := st.client_slots.any fun s => decide (s.pid = p) } := by
    unfold set_property_data_rout
    rw [if_neg (by omega), if_neg hpb, if_pos hp0]
  have hst₁slots : (set_property_data_rout st p o).state.client_slots
      = st.client_slots.map fun s =>
          if s.pid = p then { s with channel_offset := o } else s := by
    rw [hr]
  have hst₁ch : (set_property_data_rout st p o).state.num_channels
      = st.num_channels := by
    rw [hr]
  have hst₁buf : (set_property_data_rout st p o).state.loopback_buffer
      = st.loopback_buffer := by
    rw [hr]
  have hslot₁ : clientSlotOf (set_property_data_rout st p o).state c
      = { clientSlotOf st c with channel_offset := o } := by
    unfold clientSlotOf
    rw [hst₁slots, getD_map_slot hlen]
    dsimp only
    rw [if_pos (show (st.client_slots.getD (slotIndex c) ClientSlot.init).pid = p
      from hpid)]
  have hmatch₁ : (clientSlotOf (set_property_data_rout st p o).state c).client_id
      = c := by
    rw [hslot₁]
    exact hmatch
  have hoff2₁ :
      2 ≤ (clientSlotOf (set_property_data_rout st p o).state c).channel_offset := by
    rw [hslot₁]
    exact ho2
  have hoffc₁ :
      (clientSlotOf (set_property_data_rout st p o).state c).channel_offset + 1
        < (set_property_data_rout st p o).state.num_channels := by
    rw [hslot₁, hst₁ch]
    exact hoc
  have hoffeq :
      (clientSlotOf (set_property_data_rout st p o).state c).channel_offset = o := by
    rw [hslot₁]
  have hres := processOutput_engaged (set_property_data_rout st p o).state c F t
    input hmatch₁ hoff2₁ hoffc₁
  have hch₂ : (processOutput (set_property_data_rout st p o).state c F t
      input).1.num_channels = st.num_channels := by
    rw [hres]
    exact hst₁ch
  have hlen₂ : (processOutput (set_property_data_rout st p o).state c F t
      input).1.loopback_buffer.length = st.loopback_buffer.length := by
    rw [processOutput_length]
    rw [hst₁buf]
  have hring : st.loopback_buffer.length
      = (st.loopback_buffer.length / st.num_channels) * st.num_channels :=
    (Nat.div_mul_cancel hdvd).symm
  have hslots₂ : (processOutput (set_property_data_rout st p o).state c F t
      input).1.client_slots
      = (st.client_slots.map fun s =>
          if s.pid = p then { s with channel_offset := o } else s).set (slotIndex c)
        ({ { clientSlotOf st c with channel_offset := o } with
            last_write_time := t + F }) := by
    rw [hres]
    show (set_property_data_rout st p o).state.client_slots.set (slotIndex c)
        ({ clientSlotOf (set_property_data_rout st p o).state c with
            last_write_time := t + F }) = _
    rw [hst₁slots, hslot₁]
  have hbuf₂ : (processOutput (set_property_data_rout st p o).state c F t
      input).1.loopback_buffer
      = (if F ≤ st.loopback_buffer.length / st.num_channels
            - t % (st.loopback_buffer.length / st.num_channels) then
          writeLoop input st.num_channels o st.loopback_buffer.length
            (t % (st.loopback_buffer.length / st.num_channels)) 0 F
            st.loopback_buffer
        else
          writeLoop input st.num_channels o st.loopback_buffer.length 0
            (st.loopback_buffer.length / st.num_channels
              - t % (st.loopback_buffer.length / st.num_channels))
            (F - (st.loopback_buffer.length / st.num_channels
              - t % (st.loopback_buffer.length / st.num_channels)))
            (writeLoop input st.num_channels o st.loopback_buffer.length
              (t % (st.loopback_buffer.length / st.num_channels)) 0
              (st.loopback_buffer.length / st.num_channels
                - t % (st.loopback_buffer.length / st.num_channels))
              st.loopback_buffer)) := by
    rw [hres]
    show (if F ≤ (set_property_data_rout st p o).state.loopback_buffer.length
            / (set_property_data_rout st p o).state.num_channels
            - t % ((set_property_data_rout st p o).state.loopback_buffer.length
              / (set_property_data_rout st p o).state.num_channels) then
          writeLoop input (set_property_data_rout st p o).state.num_channels
            (clientSlotOf (set_property_data_rout st p o).state c).channel_offset
            (set_property_data_rout st p o).state.loopback_buffer.length
            (t % ((set_property_data_rout st p o).state.loopback_buffer.length
              / (set_property_data_rout st p o).state.num_channels)) 0 F
            (set_property_data_rout st p o).state.loopback_buffer
        else
          writeLoop input (set_property_data_rout st p o).state.num_channels
            (clientSlotOf (set_property_data_rout st p o).state c).channel_offset
            (set_property_data_rout st p o).state.loopback_buffer.length 0
            ((set_property_data_rout st p o).state.loopback_buffer.length
              / (set_property_data_rout st p o).state.num_channels
              - t % ((set_property_data_rout st p o).state.loopback_buffer.length
                / (set_property_data_rout st p o).state.num_channels))
            (F - ((set_property_data_rout st p o).state.loopback_buffer.length
              / (set_property_data_rout st p o).state.num_channels
              - t % ((set_property_data_rout st p o).state.loopback_buffer.length
                / (set_property_data_rout st p o).state.num_channels)))
            (writeLoop input (set_property_data_rout st p o).state.num_channels
              (clientSlotOf (set_property_data_rout st p o).state c).channel_offset
              (set_property_data_rout st p o).state.loopback_buffer.length
              (t % ((set_property_data_rout st p o).state.loopback_buffer.length
                / (set_property_data_rout st p o).state.num_channels)) 0
              ((set_property_data_rout st p o).state.loopback_buffer.length
                / (set_property_data_rout st p o).state.num_channels
                - t % ((set_property_data_rout st p o).state.loopback_buffer.length
                  / (set_property_data_rout st p o).state.num_channels))
              (set_property_data_rout st p o).state.loopback_buffer)) = _
    rw [hst₁buf, hst₁ch, hoffeq]
  have hchpos : o < st.num_channels := by omega
  have hguard : ∀ s, s ∈ (processOutput (set_property_data_rout st p o).state c F t
      input).1.client_slots → s.client_id ≠ 0 →
      ¬(s.channel_offset < 2 ∨ s.channel_offset + 1 ≥ st.num_channels) →
      t + F > s.last_write_time →
      s.channel_offset + 1 < o ∨ o + 1 < s.channel_offset := by
    intro s hs h1 h2 h3
    rw [hslots₂] at hs
    rcases List.mem_iff_getElem.mp hs with ⟨j, hj, hgetj⟩
    have hjlen : j < st.client_slots.length := by
      simpa using hj
    by_cases hji : j = slotIndex c
    · subst hji
      have hs2 : s = ({ { clientSlotOf st c with channel_offset := o } with
          last_write_time := t + F }) := by
        rw [← hgetj]
        exact List.getElem_set_self (h := hj)
      rw [hs2] at h3
      exact absurd (show t + F > t + F from h3) (lt_irrefl _)
    · have hmaplen : j < (st.client_slots.map fun s =>
          if s.pid = p then { s with channel_offset := o } else s).length := by
        simpa using hjlen
      have e1 : ((st.client_slots.map fun s =>
          if s.pid = p then { s with channel_offset := o } else s).set (slotIndex c)
          ({ { clientSlotOf st c with channel_offset := o } with
              last_write_time := t + F }))[j]
          = (st.client_slots.map fun s =>
          if s.pid = p then { s with channel_offset := o } else s)[j] :=
        List.getElem_set_ne (h := fun hh => hji hh.symm) hj
      have e2 : (st.client_slots.map fun s =>
          if s.pid = p then { s with channel_offset := o } else s)[j]
          = (fun s => if s.pid = p then { s with channel_offset := o } else s)
              (st.client_slots[j]) :=
        List.getElem_map _
      have hpidj : (st.client_slots[j]).pid ≠ p := by
        have := huniq j hjlen hji
        rw [getD_eq_getElem hjlen] at this
        exact this
      have hs3 : s = st.client_slots[j] := by
        rw [← hgetj, e1, e2]
        dsimp only
        rw [if_neg hpidj]
      rw [hs3] at h1 h2 h3 ⊢
      have hd := hdisj j hjlen hji
      rw [getD_eq_getElem hjlen] at hd
      exact hd h1 (by omega) (by omega) h3
  have hringlen₂ : (processOutput (set_property_data_rout st p o).state c F t
      input).1.loopback_buffer.length
      = (st.loopback_buffer.length / st.num_channels) * st.num_channels :=
    hlen₂.trans hring
  have hrpos : t % (st.loopback_buffer.length / st.num_channels)
      < st.loopback_buffer.length / st.num_channels := Nat.mod_lt t hbf
  refine ⟨by rw [hr], ?_, ?_⟩
  · intro i hi
    have hH₁ : ∀ s' ∈ (processOutput (set_property_data_rout st p o).state c F t
        input).1.client_slots,
        s'.client_id ≠ 0 →
        ¬(s'.channel_offset < 2 ∨ s'.channel_offset + 1 ≥ st.num_channels) →
        t + F > s'.last_write_time →
        ∀ i', i' < F →
          i * st.num_channels + o ≠ i' * st.num_channels + s'.channel_offset ∧
          i * st.num_channels + o
            ≠ i' * st.num_channels + s'.channel_offset + 1 := by
      intro s' hs' h1 h2 h3 i' hi'
      have hd := hguard s' hs' h1 h2 h3
      exact ⟨@chan_pos_ne st.num_channels o s'.channel_offset i i'
          hchpos (by omega) (by omega),
        @chan_pos_ne st.num_channels o (s'.channel_offset + 1) i i'
          hchpos (by omega) (by omega)⟩
    have hH₂ : ∀ s' ∈ (processOutput (set_property_data_rout st p o).state c F t
        input).1.client_slots,
        s'.client_id ≠ 0 →
        ¬(s'.channel_offset < 2 ∨ s'.channel_offset + 1 ≥ st.num_channels) →
        t + F > s'.last_write_time →
        ∀ i', i' < F →
          i * st.num_channels + (o + 1)
            ≠ i' * st.num_channels + s'.channel_offset ∧
          i * st.num_channels + (o + 1)
            ≠ i' * st.num_channels + s'.channel_offset + 1 := by
      intro s' hs' h1 h2 h3 i' hi'
      have hd := hguard s' hs' h1 h2 h3
      exact ⟨@chan_pos_ne st.num_channels (o + 1) s'.channel_offset i i'
          hoc (by omega) (by omega),
        @chan_pos_ne st.num_channels (o + 1) (s'.channel_offset + 1) i i'
          hoc (by omega) (by omega)⟩
    constructor
    · rw [readInput_def, hch₂, hlen₂,
        stalenessPass_getD_ne st.num_channels F t _ _ (i * st.num_channels + o) hH₁,
        captureRaw_getD hringlen₂ hrpos hF hi hchpos, hbuf₂]
      exact (writtenBuf_getD rfl hring hoc hrpos hF hi).1
    · rw [readInput_def, hch₂, hlen₂,
        stalenessPass_getD_ne st.num_channels F t _ _
          (i * st.num_channels + (o + 1)) hH₂,
        captureRaw_getD hringlen₂ hrpos hF hi hoc, hbuf₂]
      exact (writtenBuf_getD rfl hring hoc hrpos hF hi).2
  · intro s hs h1 h2 h3 h4 i hi
    constructor
    · rw [readInput_def, hch₂, hlen₂]
      exact (stalenessPass_zeroes st.num_channels F t _ _ s hs h1 h2 h3 h4 i hi).1
    · rw [readInput_def, hch₂, hlen₂]
      exact (stalenessPass_zeroes st.num_channels F t _ _ s hs h1 h2 h3 h4 i hi).2

set_option maxRecDepth 4096 in
/-- C1 counterexample: offset 0 is "valid" for the routing validation (even
and `0 + 1 < channel_count`) and is assigned to the joined client's slot
(second conjunct), but the write path silently drops every write with
`channel_offset < 2`, so the capture read over the written window returns 0
at bus channel 0 instead of the written sample 7: the round trip fails at
`o = 0` even though the claim's premises hold there. -/
theorem claim_C1_counterexample :
    (set_property_data_rout demoState64 5 0).status = 0 ∧
    (clientSlotOf (set_property_data_rout demoState64 5 0).state 1).channel_offset
      = 0 ∧
    ¬ ((readInput (processOutput (set_property_data_rout demoState64 5 0).state
          1 1 0 [7, 8]).1 1 0).getD (0 * demoState64.num_channels + 0) 0
        = [7, 8].getD (0 * 2) 0) := by
  refine ⟨by decide, by decide, by decide⟩

set_option maxRecDepth 4096 in
theorem claim_C1_witness :
    (set_property_data_rout demoState 5 2).status = 0 ∧
    (∀ i, i < 1 →
      (readInput (processOutput (set_property_data_rout demoState 5 2).state 1 1 0
          [7, 8]).1 1 0).getD (i * demoState.num_channels + 2) 0
        = [7, 8].getD (i * 2) 0 ∧
      (readInput (processOutput (set_property_data_rout demoState 5 2).state 1 1 0
          [7, 8]).1 1 0).getD (i * demoState.num_channels + (2 + 1)) 0
        = [7, 8].getD (i * 2 + 1) 0) ∧
    (∀ s ∈ (processOutput (set_property_data_rout demoState 5 2).state 1 1 0
        [7, 8]).1.client_slots,
      s.client_id ≠ 0 → 2 ≤ s.channel_offset →
      s.channel_offset + 1 < demoState.num_channels → s.last_write_time < 0 + 1 →
      ∀ i, i < 1 →
        (readInput (processOutput (set_property_data_rout demoState 5 2).state 1 1 0
            [7, 8]).1 1 0).getD (i * demoState.num_channels + s.channel_offset) 0
          = 0 ∧
        (readInput (processOutput (set_property_data_rout demoState 5 2).state 1 1 0
            [7, 8]).1 1 0).getD
          (i * demoState.num_channels + s.channel_offset + 1) 0 = 0) :=
  claim_C1 demoState 1 5 2 1 0 [7, 8] (by decide) (by decide) (by decide)
    (by decide) (by decide) (by decide) (by decide) (by decide) (by decide)
    (by
      intro j hj hji h1
      have hj2 : j < 2 := by simpa [demoState] using hj
      interval_cases j
      · exact absurd (show (demoState.client_slots.getD 0
          ClientSlot.init).client_id = 0 by decide) h1
      · exact absurd rfl hji)
    (by decide) (by decide) (by decide)

/-! ### C3: wraparound split equivalence -/

/-- C3 counterexample: with a 4-frame ring (`demoState`), `k = 1` and
`F = 6` (so that the second segment `F - k = 5` itself exceeds the ring), a
single ClientWrite starting at `total_frames - k` does **not** equal the two
split writes: the single call's copy loop bound-checks
`dst_idx + 1 < buffer_len` and silently skips source frames past the ring,
while the second of the two split calls wraps again and lands them at the
ring start. -/
theorem claim_C3_counterexample :
    ¬ ((processOutput demoState 1 6 3
          [1, 2, 3, 4, 5, 6, 7, 8, 9, 10, 11, 12]).1.loopback_buffer
        = (processOutput (processOutput demoState 1 1 3
            ([1, 2, 3, 4, 5, 6, 7, 8, 9, 10, 11, 12].take (2 * 1))).1 1 (6 - 1) 4
            ([1, 2, 3, 4, 5, 6, 7, 8, 9, 10, 11, 12].drop (2 * 1))).1.loopback_buffer) := by
  decide

/-- C3 (amended): for `0 < k < F` with `k ≤ total_frames` and
`F - k ≤ total_frames`, a single engaged ClientWrite of `F` frames whose
write position is `total_frames - k` produces exactly the same ring-buffer
contents as two ClientWrites of the same samples split at the wrap
boundary: first `k` frames at position `total_frames - k`, then `F - k`
frames at position 0.  The amendment adds `F - k ≤ total_frames`: beyond it
the single call's bounds check drops what the split call wraps around (see
the counterexample). -/
theorem claim_C3 (st : PrismDriver) (c k F t₁ t₂ : Nat) (input : List Int)
    (hmatch : (clientSlotOf st c).client_id = c)
    (hoff2 : 2 ≤ (clientSlotOf st c).channel_offset)
    (hoffc : (clientSlotOf st c).channel_offset + 1 < st.num_channels)
    (hk0 : 0 < k) (hkF : k < F)
    (hkbf : k ≤ st.loopback_buffer.length / st.num_channels)
    (ht₁ : t₁ % (st.loopback_buffer.length / st.num_channels)
      = st.loopback_buffer.length / st.num_channels - k)
    (ht₂ : t₂ % (st.loopback_buffer.length / st.num_channels) = 0)
    (hFk : F - k ≤ st.loopback_buffer.length / st.num_channels) :
    (processOutput st c F t₁ input).1.loopback_buffer =
      (processOutput (processOutput st c k t₁ (input.take (2 * k))).1 c (F - k) t₂
        (input.drop (2 * k))).1.loopback_buffer := by
  have hlen : slotIndex c < st.client_slots.length := by
    by_contra hnl
    have hinit : clientSlotOf st c = ClientSlot.init := by
      unfold clientSlotOf
      rw [List.getD_eq_getElem?_getD, List.getElem?_eq_none (Nat.le_of_not_lt hnl)]
      rfl
    rw [hinit] at hoff2
    exact absurd hoff2 (by decide)
  have hsub : st.loopback_buffer.length / st.num_channels
      - (st.loopback_buffer.length / st.num_channels - k) = k := by omega
  -- the single write
  have hres₁ := processOutput_engaged st c F t₁ input hmatch hoff2 hoffc
  have hbufS : (processOutput st c F t₁ input).1.loopback_buffer
      = writeLoop input st.num_channels (clientSlotOf st c).channel_offset
          st.loopback_buffer.length 0 k (F - k)
          (writeLoop input st.num_channels (clientSlotOf st c).channel_offset
            st.loopback_buffer.length
            (st.loopback_buffer.length / st.num_channels - k) 0 k
            st.loopback_buffer) := by
    rw [hres₁]
    show (if F ≤ st.loopback_buffer.length / st.num_channels
            - t₁ % (st.loopback_buffer.length / st.num_channels) then
          writeLoop input st.num_channels (clientSlotOf st c).channel_offset
            st.loopback_buffer.length
            (t₁ % (st.loopback_buffer.length / st.num_channels)) 0 F
            st.loopback_buffer
        else
          writeLoop input st.num_channels (clientSlotOf st c).channel_offset
            st.loopback_buffer.length 0
            (st.loopback_buffer.length / st.num_channels
              - t₁ % (st.loopback_buffer.length / st.num_channels))
            (F - (st.loopback_buffer.length / st.num_channels
              - t₁ % (st.loopback_buffer.length / st.num_channels)))
            (writeLoop input st.num_channels (clientSlotOf st c).channel_offset
              st.loopback_buffer.length
              (t₁ % (st.loopback_buffer.length / st.num_channels)) 0
              (st.loopback_buffer.length / st.num_channels
                - t₁ % (st.loopback_buffer.length / st.num_channels))
              st.loopback_buffer)) = _
    rw [ht₁, hsub, if_neg (by omega)]
  -- the first of the two split writes
  have hresA := processOutput_engaged st c k t₁ (input.take (2 * k)) hmatch hoff2 hoffc
  have hbufA : (processOutput st c k t₁ (input.take (2 * k))).1.loopback_buffer
      = writeLoop (input.take (2 * k)) st.num_channels
          (clientSlotOf st c).channel_offset st.loopback_buffer.length
          (st.loopback_buffer.length / st.num_channels - k) 0 k
          st.loopback_buffer := by
    rw [hresA]
    show (if k ≤ st.loopback_buffer.length / st.num_channels
            - t₁ % (st.loopback_buffer.length / st.num_channels) then
          writeLoop (input.take (2 * k)) st.num_channels
            (clientSlotOf st c).channel_offset st.loopback_buffer.length
            (t₁ % (st.loopback_buffer.length / st.num_channels)) 0 k
            st.loopback_buffer
        else
          writeLoop (input.take (2 * k)) st.num_channels
            (clientSlotOf st c).channel_offset st.loopback_buffer.length 0
            (st.loopback_buffer.length / st.num_channels
              - t₁ % (st.loopback_buffer.length / st.num_channels))
            (k - (st.loopback_buffer.length / st.num_channels
              - t₁ % (st.loopback_buffer.length / st.num_channels)))
            (writeLoop (input.take (2 * k)) st.num_channels
              (clientSlotOf st c).channel_offset st.loopback_buffer.length
              (t₁ % (st.loopback_buffer.length / st.num_channels)) 0
              (st.loopback_buffer.length / st.num_channels
                - t₁ % (st.loopback_buffer.length / st.num_channels))
              st.loopback_buffer)) = _
    rw [ht₁, hsub, if_pos (Nat.le_refl k)]
  have hslotA : clientSlotOf (processOutput st c k t₁ (input.take (2 * k))).1 c
      = { clientSlotOf st c with last_write_time := t₁ + k } := by
    unfold clientSlotOf
    rw [hresA]
    show ((st.client_slots.set (slotIndex c)
        ({ clientSlotOf st c with last_write_time := t₁ + k })).getD (slotIndex c)
        ClientSlot.init) = _
    exact getD_set_self hlen
  have hchA : (processOutput st c k t₁ (input.take (2 * k))).1.num_channels
      = st.num_channels := by
    rw [hresA]
  have hLA : (processOutput st c k t₁ (input.take (2 * k))).1.loopback_buffer.length
      = st.loopback_buffer.length := processOutput_length st c k t₁ _
  have hmatchB : (clientSlotOf (processOutput st c k t₁
      (input.take (2 * k))).1 c).client_id = c := by
    rw [hslotA]
    exact hmatch
  have hoff2B : 2 ≤ (clientSlotOf (processOutput st c k t₁
      (input.take (2 * k))).1 c).channel_offset := by
    rw [hslotA]
    exact hoff2
  have hoffcB : (clientSlotOf (processOutput st c k t₁
      (input.take (2 * k))).1 c).channel_offset + 1
      < (processOutput st c k t₁ (input.take (2 * k))).1.num_channels := by
    rw [hslotA, hchA]
    exact hoffc
  have hoffeqB : (clientSlotOf (processOutput st c k t₁
      (input.take (2 * k))).1 c).channel_offset
      = (clientSlotOf st c).channel_offset := by
    rw [hslotA]
  have hresB := processOutput_engaged (processOutput st c k t₁
    (input.take (2 * k))).1 c (F - k) t₂ (input.drop (2 * k)) hmatchB hoff2B hoffcB
  have hbufB : (processOutput (processOutput st c k t₁ (input.take (2 * k))).1 c
      (F - k) t₂ (input.drop (2 * k))).1.loopback_buffer
      = writeLoop (input.drop (2 * k)) st.num_channels
          (clientSlotOf st c).channel_offset st.loopback_buffer.length 0 0 (F - k)
          (processOutput st c k t₁ (input.take (2 * k))).1.loopback_buffer := by
    rw [hresB]
    show (if F - k ≤ (processOutput st c k t₁
            (input.take (2 * k))).1.loopback_buffer.length
            / (processOutput st c k t₁ (input.take (2 * k))).1.num_channels
            - t₂ % ((processOutput st c k t₁
              (input.take (2 * k))).1.loopback_buffer.length
              / (processOutput st c k t₁ (input.take (2 * k))).1.num_channels) then
          writeLoop (input.drop (2 * k))
            (processOutput st c k t₁ (input.take (2 * k))).1.num_channels
            (clientSlotOf (processOutput st c k t₁
              (input.take (2 * k))).1 c).channel_offset
            (processOutput st c k t₁ (input.take (2 * k))).1.loopback_buffer.length
            (t₂ % ((processOutput st c k t₁
              (input.take (2 * k))).1.loopback_buffer.length
              / (processOutput st c k t₁ (input.take (2 * k))).1.num_channels)) 0
            (F - k)
            (processOutput st c k t₁ (input.take (2 * k))).1.loopback_buffer
        else
          writeLoop (input.drop (2 * k))
            (processOutput st c k t₁ (input.take (2 * k))).1.num_channels
            (clientSlotOf (processOutput st c k t₁
              (input.take (2 * k))).1 c).channel_offset
            (processOutput st c k t₁ (input.take (2 * k))).1.loopback_buffer.length
            0
            ((processOutput st c k t₁
              (input.take (2 * k))).1.loopback_buffer.length
              / (processOutput st c k t₁ (input.take (2 * k))).1.num_channels
              - t₂ % ((processOutput st c k t₁
                (input.take (2 * k))).1.loopback_buffer.length
                / (processOutput st c k t₁ (input.take (2 * k))).1.num_channels))
            (F - k - ((processOutput st c k t₁
              (input.take (2 * k))).1.loopback_buffer.length
              / (processOutput st c k t₁ (input.take (2 * k))).1.num_channels
              - t₂ % ((processOutput st c k t₁
                (input.take (2 * k))).1.loopback_buffer.length
                / (processOutput st c k t₁ (input.take (2 * k))).1.num_channels)))
            (writeLoop (input.drop (2 * k))
              (processOutput st c k t₁ (input.take (2 * k))).1.num_channels
              (clientSlotOf (processOutput st c k t₁
                (input.take (2 * k))).1 c).channel_offset
              (processOutput st c k t₁
                (input.take (2 * k))).1.loopback_buffer.length
              (t₂ % ((processOutput st c k t₁
                (input.take (2 * k))).1.loopback_buffer.length
                / (processOutput st c k t₁ (input.take (2 * k))).1.num_channels)) 0
              ((processOutput st c k t₁
                (input.take (2 * k))).1.loopback_buffer.length
                / (processOutput st c k t₁ (input.take (2 * k))).1.num_channels
                - t₂ % ((processOutput st c k t₁
                  (input.take (2 * k))).1.loopback_buffer.length
                  / (processOutput st c k t₁
                    (input.take (2 * k))).1.num_channels))
              (processOutput st c k t₁
                (input.take (2 * k))).1.loopback_buffer)) = _
    rw [hLA, hchA, hoffeqB, ht₂, Nat.sub_zero, if_pos hFk]
  rw [hbufS, hbufB, hbufA]
  have hinner : writeLoop (input.take (2 * k)) st.num_channels
      (clientSlotOf st c).channel_offset st.loopback_buffer.length
      (st.loopback_buffer.length / st.num_channels - k) 0 k st.loopback_buffer
      = writeLoop input st.num_channels (clientSlotOf st c).channel_offset
          st.loopback_buffer.length
          (st.loopback_buffer.length / st.num_channels - k) 0 k
          st.loopback_buffer := by
    apply writeLoop_congr
    intro i hi
    constructor
    · exact getD_take (by omega)
    · exact getD_take (by omega)
  have houter : writeLoop (input.drop (2 * k)) st.num_channels
      (clientSlotOf st c).channel_offset st.loopback_buffer.length 0 0 (F - k)
      (writeLoop input st.num_channels (clientSlotOf st c).channel_offset
        st.loopback_buffer.length
        (st.loopback_buffer.length / st.num_channels - k) 0 k st.loopback_buffer)
      = writeLoop input st.num_channels (clientSlotOf st c).channel_offset
          st.loopback_buffer.length 0 k (F - k)
          (writeLoop input st.num_channels (clientSlotOf st c).channel_offset
            st.loopback_buffer.length
            (st.loopback_buffer.length / st.num_channels - k) 0 k
            st.loopback_buffer) := by
    apply writeLoop_congr
    intro i hi
    constructor
    · rw [getD_drop]
      congr 1
      ring
    · rw [getD_drop]
      congr 1
      ring
  rw [hinner, houter]

theorem claim_C3_witness :
    (processOutput demoState 1 3 3 [1, 2, 3, 4, 5, 6]).1.loopback_buffer =
      (processOutput (processOutput demoState 1 1 3
          ([1, 2, 3, 4, 5, 6].take (2 * 1))).1 1 (3 - 1) 4
          ([1, 2, 3, 4, 5, 6].drop (2 * 1))).1.loopback_buffer :=
  claim_C3 demoState 1 1 3 3 4 [1, 2, 3, 4, 5, 6] (by decide) (by decide)
    (by decide) (by decide) (by decide) (by decide) (by decide) (by decide)
    (by decide)

end Prism
